import Mathlib

/-!
Verification of the Certabo Release3.5 board-driver core.

This file shallowly embeds the data model and operations of the driver
(src/utils_shared.py and src/utils.py) in Lean and proves the stated
properties about them.  Python dictionaries are modelled as functions
into Option, Python lists as Lean lists, machine integers as Nat/Int,
file and queue I/O as explicit inputs and outputs, and Python
exceptions as Except results.
-/

namespace Certabo

/-! ## Python string operations

The Python string operations the driver uses, defined by structural
recursion over the character list of the string (so that every definition
evaluates on concrete inputs). -/

/-- s[n:] on a Python string. -/
def pyDrop (s : String) (n : Nat) : String := ⟨s.data.drop n⟩

/-- s[:n] on a Python string. -/
def pyTake (s : String) (n : Nat) : String := ⟨s.data.take n⟩

/-- s[:-n] on a Python string (empty when n is at least the length). -/
def pyDropRight (s : String) (n : Nat) : String := ⟨s.data.take (s.data.length - n)⟩

/-- c in s on a Python string. -/
def pyContains (s : String) (c : Char) : Bool := s.data.contains c

/-- s.lower() (the driver only lowercases ASCII piece letters). -/
def pyLower (s : String) : String := ⟨s.data.map Char.toLower⟩

/-- The splitter of s.split(sep) for a one-character separator, keeping
empty tokens, on the character list. -/
def splitCharAux (sep : Char) : List Char → List (List Char)
  | [] => [[]]
  | c :: t =>
    match splitCharAux sep t with
    | [] => []
    | h :: r => if c = sep then [] :: h :: r else (c :: h) :: r

/-- s.split(sep) for a one-character separator (keeps empty tokens, and
"".split(sep) is [""], as in Python). -/
def pySplit (sep : Char) (s : String) : List String :=
  (splitCharAux sep s.data).map fun l => ⟨l⟩

/-- sep.join(parts). -/
def pyJoin (sep : String) : List String → String
  | [] => ""
  | [x] => x
  | x :: y :: t => x ++ sep ++ pyJoin sep (y :: t)

/-! ## Counter model

Models collections.Counter as used in UsbReader: update inserts keys in
encounter order, and most_common(1) returns the first-inserted key among
those with maximal count (Counter.most_common sorts by count with a
stable sort, so insertion order breaks ties). -/

/-- One Counter.update step: bump the count of a key, keeping first-insertion
order of keys. -/
def insertCount {α : Type} [DecidableEq α] : List (α × Nat) → α → List (α × Nat)
  | [], c => [(c, 1)]
  | (a, n) :: t, c => if a = c then (a, n + 1) :: t else (a, n) :: insertCount t c

/-- The counts table of a list, in first-encounter order (Counter(l).items()). -/
def countsOf {α : Type} [DecidableEq α] (l : List α) : List (α × Nat) :=
  l.foldl insertCount []

/-- Counter(l).most_common(1)[0][0]: the element of maximal count, ties broken
by first-encounter order; none when l is empty (where the Python code would
raise an IndexError, which is unreachable in the driver because the frame
history always has its three slots filled when a decode runs). -/
def most_common1 {α : Type} [DecidableEq α] (l : List α) : Option α :=
  match countsOf l with
  | [] => none
  | p :: ps => some ((ps.foldl (fun best q => if q.2 > best.2 then q else best) p).1)

/-! ## Sensor decoder: UsbReader.data_to_fen (src/utils_shared.py lines 115-142) -/

/-- The learned code-to-piece dictionary self.code_mapping: a finite map from
5-token cell codes to piece letters; dict.get(key, default) is (cm key).getD default. -/
abbrev CodeMap : Type := List String → Option Char

/-- The 5-token cell code of one cell in one raw frame string:
data[1:] split on spaces, tokens cell*5 to cell*5+5. -/
def cellCode (data : String) (cell : Nat) : List String :=
  ((pySplit (Char.ofNat 32) (pyDrop data 1)).drop (cell * 5)).take 5

/-- The decoded symbol of one cell: per-slot CodeMap lookup (default missing
marker), then Counter majority over the history slots. -/
def decodeCell (cm : CodeMap) (missing : Char) (data_history : List String)
    (cell : Nat) : Char :=
  (most_common1 (data_history.map fun data => (cm (cellCode data cell)).getD missing)).getD missing

/-- The 64 decoded cell symbols, in board order (the board list of data_to_fen). -/
def decodedBoard (cm : CodeMap) (missing : Char) (data_history : List String) :
    List Char :=
  (List.range 64).map (decodeCell cm missing data_history)

/-- One FEN rank from 8 cell symbols: run-length digits for consecutive
empty markers, pieces verbatim (the inner col loop of data_to_fen). -/
def rowFen (cells : List Char) : String :=
  let step : String × Nat → Char → String × Nat := fun acc piece =>
    if piece = '.' then (acc.1, acc.2 + 1)
    else ((acc.1 ++ (if 0 < acc.2 then Nat.repr acc.2 else "")).push piece, 0)
  let r := cells.foldl step ("", 0)
  r.1 ++ (if 0 < r.2 then Nat.repr r.2 else "")

/-- The 8-rank FEN board field of 64 cell symbols (the row loop of data_to_fen,
with "/" between consecutive ranks). -/
def fenOfBoard (board : List Char) : String :=
  String.intercalate "/" ((List.range 8).map fun row => rowFen ((board.drop (row * 8)).take 8))

/-- UsbReader.data_to_fen: decode the raw frame history into a FEN board field. -/
def data_to_fen (cm : CodeMap) (missing : Char) (data_history : List String) : String :=
  fenOfBoard (decodedBoard cm missing data_history)

/-- A sample code map and frames used to instantiate the decoder theorems. -/
def sampleCodeMap : CodeMap :=
  fun k => if k = ["1", "1", "1", "1", "1"] then some 'K' else none

/-- A sample raw frame whose first cell carries the code 1 1 1 1 1. -/
def sampleFrame : String := "X1 1 1 1 1"

/-! ## Serial frame protocol: the read loop of _usbtool
(src/utils_shared.py lines 480-494) -/

/-- Processing one complete inbound line (the "else" branch of the newline
test): strip the trailing two characters, then deliver the line as a frame
only when splitting on spaces yields exactly 320 tokens. -/
def process_line (line : String) : Option String :=
  let m := pyDropRight line 2
  if (pySplit (Char.ofNat 32) m).length = 320 then some m else none

/-- One byte of the _usbtool read loop acting on the accumulation buffer
message_from_board: a non-newline character is appended; a newline finishes
the line, resets the buffer (and the serial input buffer) and possibly
delivers a frame to the queue. -/
def usb_step (buf : String) (c : Char) : String × Option String :=
  if c = '\n' then ("", process_line buf) else (buf.push c, none)

/-! ## UsbReader frame history and snapshot
(src/utils_shared.py lines 74-97 and 144-168) -/

/-- chess.Board().board_fen(): the standard starting position board field. -/
def startFEN : String := "rnbqkbnr/pppppppp/8/8/8/8/PPPPPPPP/RNBQKBNR"

/-- Python string reversal s[::-1]. -/
def pyReverse (s : String) : String := ⟨s.data.reverse⟩

/-- The state of a UsbReader that matters for reading the board: the 3-slot
frame history (None-filled initially), the ring index data_history_i
(starting at minus the depth, so Python negative indexing addresses the
slots until the ring first fills), the cached FEN snapshot, and the decode
parameters code_mapping and default_missing_piece. -/
structure UsbReader where
  data_history : List (Option String)
  data_history_i : Int
  board_fen : String
  code_mapping : CodeMap
  default_missing_piece : Char

/-- UsbReader.__init__ (the reading-related fields). -/
def UsbReader.init (cm : CodeMap) (missing : Char) : UsbReader :=
  { data_history := [none, none, none]
    data_history_i := -3
    board_fen := startFEN
    code_mapping := cm
    default_missing_piece := missing }

/-- One drained frame inside UsbReader.update: compare the frame against the
slot data_history[data_history_i] (Python negative indexing is Int.emod 3),
overwrite and set the changed flag only when they differ, then advance the
index, wrapping it to 0 once it reaches the depth. -/
def update_frame (h : List (Option String)) (i : Int) (changed : Bool)
    (data : String) : List (Option String) × Int × Bool :=
  let j := (i.emod 3).toNat
  let h2 := if h.getD j none = some data then h else h.set j (some data)
  let changed2 := if h.getD j none = some data then changed else true
  let i2 := i + 1
  (h2, if 3 ≤ i2 then 0 else i2, changed2)

/-- The drain loop of UsbReader.update over the frames pending in the queue. -/
def drain_frames (st : List (Option String) × Int × Bool) (frames : List String) :
    List (Option String) × Int × Bool :=
  frames.foldl (fun acc d => update_frame acc.1 acc.2.1 acc.2.2 d) st

/-- UsbReader.update: drain all pending frames into the history ring and
recompute the snapshot via data_to_fen only when some frame changed and the
ring has filled at least once (data_history_i no longer negative).  The
getD "" view of the slots is only reached with every slot filled. -/
def UsbReader.update (s : UsbReader) (frames : List String) : UsbReader :=
  let r := drain_frames (s.data_history, s.data_history_i, false) frames
  let s2 := { s with data_history := r.1, data_history_i := r.2.1 }
  if r.2.2 ∧ 0 ≤ r.2.1 then
    { s2 with
      board_fen := data_to_fen s.code_mapping s.default_missing_piece (r.1.map (fun o => o.getD "")) }
  else s2

/-- UsbReader.read_board: drain pending frames, then return the cached
snapshot, reversed when the board is rotated. -/
def UsbReader.read_board (s : UsbReader) (frames : List String) (rotate180 : Bool) :
    String × UsbReader :=
  let s2 := s.update frames
  ((if rotate180 then pyReverse s2.board_fen else s2.board_fen), s2)

/-- A sequence of polls, each draining one batch of frames. -/
def run_polls (s : UsbReader) (polls : List (List String)) : UsbReader :=
  polls.foldl UsbReader.update s

/-- Every drained frame of a poll equals the history slot it would replace
(stated along the drain order, with the ring index advancing as in
update_frame; the history itself stays unchanged in that case). -/
def allSameFrames (h : List (Option String)) : Int → List String → Prop
  | _, [] => True
  | i, d :: ds =>
    h.getD ((i.emod 3).toNat) none = some d ∧
      allSameFrames h (if 3 ≤ i + 1 then 0 else i + 1) ds

/-! ## Calibration file loading: UsbReader.load_piece_codes
(src/utils_shared.py lines 99-113) -/

/-- self.code_mapping_order. -/
def code_mapping_order : List Char :=
  ['p', 'r', 'n', 'b', 'k', 'q', 'P', 'R', 'N', 'B', 'K', 'Q']

/-- What pickle.load can yield for the calibration file: the file may be
absent, its contents may fail to unpickle or to iterate as calibration data
(in which case pickle.load or the zip loop raises), or it holds the
persisted per-piece-kind code lists (codes as integer 5-tuples; the empty
dict written for a fresh file behaves as the empty list under zip). -/
inductive PickleFile : Type
  | missing : PickleFile
  | corrupt : PickleFile
  | ok : List (List (List Int)) → PickleFile

/-- The exception raised by pickle.load on unreadable contents (or by the
zip loop on data of the wrong shape); UsbReader.load_piece_codes has no
handler for it, so it propagates to the caller. -/
inductive PickleError : Type
  | unpickling : PickleError

/-- A Python dict assignment mapping[key] = letter (later assignments win). -/
def dictInsert (m : CodeMap) (k : List String) (v : Char) : CodeMap :=
  fun q => if q = k then some v else m q

/-- The zip loop of load_piece_codes: pair the piece letters with the
persisted code lists (zip truncates at the shorter), record each code
variation keyed by its tuple of token strings. -/
def buildMapping (data : List (List (List Int))) : CodeMap :=
  (code_mapping_order.zip data).foldl
    (fun m lp => lp.2.foldl (fun m2 code => dictInsert m2 (code.map toString) lp.1) m) (fun _ => none)

/-- The all-zero cell code, always mapped to the empty marker. -/
def zeroCode : List String := ["0", "0", "0", "0", "0"]

/-- UsbReader.load_piece_codes, as a function of the previous
needs_calibration flag and the state of the calibration file.  A missing
file sets needs_calibration, writes an empty structure and loads it (so the
mapping holds only the all-zero code); readable data is folded into the
mapping; unreadable contents make pickle.load raise, which this function
does not catch. -/
def load_piece_codes (needs_calibration : Bool) (file : PickleFile) :
    Except PickleError (Bool × CodeMap) :=
  match file with
  | .missing => .ok (true, dictInsert (buildMapping []) zeroCode '.')
  | .corrupt => .error .unpickling
  | .ok data => .ok (needs_calibration, dictInsert (buildMapping data) zeroCode '.')

/-! ## Calibration pass: step 2 of UsbReader.do_calibration
(src/utils_shared.py lines 197-245).  Step 1 majority-combines the retained
samples into one 64-cell board_reading of integers; the theorems below
quantify over every possible board_reading, so they cover every outcome of
that combination. -/

/-- The per-piece learned code lists calibration_mapping. -/
abbrev CalMapping : Type := Char → List (List Int)

/-- board_reading[cell_slice_mapping[cell_index]]: the 5-integer code at a
calibration square. -/
def codeSlice (board_reading : List Int) (cell_index : Nat) : List Int :=
  (board_reading.drop (cell_index * 5)).take 5

/-- The inner add_mapping of do_calibration: append the code read at the
given square to the code list of the given piece, unless the code sums to
zero (a missed reading) or is already recorded for that piece. -/
def add_mapping (board_reading : List Int) (m : CalMapping) (key : Char)
    (cell_index : Nat) : CalMapping :=
  let code := codeSlice board_reading cell_index
  if code.sum ≠ 0 ∧ code ∉ m key then
    fun k => if k = key then m key ++ [code] else m k
  else m

/-- The calibration squares asserted by do_calibration, in call order:
the pawn loop interleaves the two colors, then rooks, knights, bishops,
queens (with the two spare-queen squares) and kings. -/
def calibration_squares : List (Char × Nat) :=
  [('p', 8), ('P', 48), ('p', 9), ('P', 49), ('p', 10), ('P', 50), ('p', 11), ('P', 51),
   ('p', 12), ('P', 52), ('p', 13), ('P', 53), ('p', 14), ('P', 54), ('p', 15), ('P', 55),
   ('r', 0), ('r', 7), ('R', 56), ('R', 63),
   ('n', 1), ('n', 6), ('N', 57), ('N', 62),
   ('b', 2), ('b', 5), ('B', 58), ('B', 61),
   ('q', 3), ('Q', 59), ('q', 19), ('Q', 43),
   ('k', 4), ('K', 60)]

/-- Step 2 of do_calibration: starting from the previous mapping (or a
fresh one when doing a new setup), run add_mapping over every calibration
square. -/
def do_calibration_mapping (new_setup : Bool) (prev : CalMapping)
    (board_reading : List Int) : CalMapping :=
  let start := if new_setup then (fun _ => []) else prev
  calibration_squares.foldl (fun m kc => add_mapping board_reading m kc.1 kc.2) start

/-- The calibration_mapping created by UsbReader.__init__: empty code lists. -/
def calibInitMapping : CalMapping := fun _ => []

/-- The recorded-code invariant: within each piece, codes are distinct and
none sums to zero (hence none is all-zero). -/
def goodMapping (m : CalMapping) : Prop :=
  ∀ k, (m k).Nodup ∧ ∀ code ∈ m k, code.sum ≠ 0

/-! ## LED encoder: LedManager (src/utils_shared.py lines 276-381) -/

/-- COLUMNS_LETTERS. -/
def COLUMNS_LETTERS : List Char := ['a', 'b', 'c', 'd', 'e', 'f', 'g', 'h']

/-- COLUMNS_LETTERS_REVERSED. -/
def COLUMNS_LETTERS_REVERSED : List Char := COLUMNS_LETTERS.reverse

/-- int(c) for a digit character. -/
def digitVal (c : Char) : Nat := c.toNat - 48

/-- A message passed to squares2led or set_leds: either a single string (a
named pattern, one square, or a move string) or a list of squares. -/
inductive LedMsg : Type
  | str : String → LedMsg
  | list : List String → LedMsg
deriving DecidableEq

/-- The inner _square2certabo: a square such as e2 becomes the pair of the
led row index and the power-of-two column value, taking rotation into
account.  Strings without two characters would raise an IndexError in
Python and are mapped to a junk value here (the claims only quantify over
well-formed squares). -/
def square2certabo (rotate180 : Bool) (square : String) : Nat × Nat :=
  match square.data with
  | c :: r :: _ =>
    if rotate180 then
      (8 - (9 - digitVal r), 2 ^ COLUMNS_LETTERS_REVERSED.indexOf c)
    else
      (8 - digitVal r, 2 ^ COLUMNS_LETTERS.indexOf c)
  | _ => (0, 0)

/-- LedManager.squares2led: a short string is one square, a longer string a
move (its two squares), a one-element list that square, and a longer list
is deduplicated as Python set(squares) does (set iteration order is
irrelevant because the additions below commute); every resulting position
adds its column value into its row of an 8-slot frame. -/
def squares2led (squares : LedMsg) (rotate180 : Bool) : List Nat :=
  let led_positions : List (Nat × Nat) :=
    match squares with
    | .str s =>
      if s.length < 4 then [square2certabo rotate180 s]
      else [square2certabo rotate180 (pyTake s 2), square2certabo rotate180 (pyTake (pyDrop s 2) 2)]
    | .list l =>
      if l.length = 1 then [square2certabo rotate180 (l.headD "")]
      else l.dedup.map (square2certabo rotate180)
  led_positions.foldl (fun leds rc => leds.set rc.1 (leds.getD rc.1 0 + rc.2)) (List.replicate 8 0)

/-- The entries of LedManager.default_messages (a dict with distinct keys,
modelled as an association list). -/
def default_messages_list : List (String × List Nat) :=
  [("all", [255, 255, 255, 255, 255, 255, 255, 255]),
   ("none", [0, 0, 0, 0, 0, 0, 0, 0]),
   ("start", [255, 255, 0, 0, 0, 0, 255, 255]),
   ("error", [0, 0, 0, 24, 24, 0, 0, 0]),
   ("corners", squares2led (.list ["a1", "a8", "h1", "h8"]) false),
   ("thinking", squares2led (.list ["d4", "e4", "d5", "e5"]) false),
   ("setup", [255, 255, 8, 0, 0, 8, 255, 255])]

/-- LedManager.default_messages, as a lookup by name. -/
def default_messages (name : String) : Option (List Nat) :=
  (default_messages_list.find? fun e => e.1 == name).map fun e => e.2

/-- The frame set_leds sends for a message: a string is first looked up in
default_messages (KeyError/TypeError falls through to squares2led). -/
def resolve_message (message : LedMsg) (rotate180 : Bool) : List Nat :=
  match message with
  | .str s =>
    match default_messages s with
    | some frame => frame
    | none => squares2led (.str s) rotate180
  | .list l => squares2led (.list l) rotate180

/-- The LedManager state relevant to set_leds: the last message accepted
and the frames handed to the usbtool queue, in order. -/
structure LedManager where
  last_message : Option LedMsg
  sent : List (List Nat)
deriving DecidableEq

/-- LedManager.__init__ (the set_leds-related fields). -/
def LedManager.init : LedManager := { last_message := none, sent := [] }

/-- LedManager.set_leds: forward the resolved frame to the transport only
when the message differs from the last one sent. -/
def set_leds (st : LedManager) (message : LedMsg) (rotate180 : Bool) : LedManager :=
  if st.last_message = some message then st
  else { last_message := some message, sent := st.sent ++ [resolve_message message rotate180] }

/-- The eight rank digits of an algebraic square. -/
def digitChars : List Char := ['1', '2', '3', '4', '5', '6', '7', '8']

/-- A well-formed algebraic square: a file letter followed by a rank digit. -/
def validSquare (sq : String) : Bool :=
  match sq.data with
  | [c, r] => COLUMNS_LETTERS.contains c && digitChars.contains r
  | _ => false

/-- The (row, column-index) coordinate that the claim says a square lights,
taking board orientation into account (stated from the wording of the
claim: the rotated board mirrors both the file and the rank). -/
def ledCoord (rotate180 : Bool) (sq : String) : Nat × Nat :=
  match sq.data with
  | c :: r :: _ =>
    if rotate180 then (digitVal r - 1, 7 - COLUMNS_LETTERS.indexOf c)
    else (8 - digitVal r, COLUMNS_LETTERS.indexOf c)
  | _ => (0, 0)

/-- The set of squares a request asks to illuminate. -/
def requestSquares : LedMsg → List String
  | .str s =>
    if s.length < 4 then [s] else [pyTake s 2, pyTake (pyDrop s 2) 2]
  | .list l =>
    if l.length = 1 then [l.headD ""] else l.dedup

/-- The well-formed requests of the claim: a single square, a move string
naming two distinct squares, or a non-empty list of squares. -/
def validRequest : LedMsg → Bool
  | .str s =>
    (s.length = 2 && validSquare s) ||
    (s.length = 4 && validSquare (pyTake s 2) && validSquare (pyTake (pyDrop s 2) 2) &&
      !(pyTake s 2 == pyTake (pyDrop s 2) 2))
  | .list l => !l.isEmpty && l.all validSquare

/-! ## Move inference: get_moves (src/utils.py lines 666-695)

The chess rule engine (python-chess) is an external capability the spec
keeps out of scope; get_moves only calls board_fen, generate_legal_moves,
push and pop on it.  It is therefore embedded parametrically over an
abstract rule engine, with push as a pure operation (push followed by pop
restores the board in python-chess). -/

/-- The rule-engine operations get_moves consumes. -/
structure RuleEngine : Type 1 where
  Board : Type
  Move : Type
  board_fen : Board → String
  legal_moves : Board → List Move
  push : Board → Move → Board
  uci : Move → String

/-- The InvalidMove exception of src/utils.py. -/
inductive InvalidMove : Type
  | mk : InvalidMove

/-- fen.split()[0]: the first whitespace-separated token (the board field
of a FEN record; the FENs handled by the driver separate fields with
single spaces). -/
def pyFirstToken (fen : String) : String :=
  (((pySplit (Char.ofNat 32) fen).filter fun t => t ≠ "").headD "")

/-- The first single-move loop of get_moves: the first legal move of the
logical board whose application reproduces the physical board field. -/
def find_single (E : RuleEngine) (board : E.Board) (board_fen : String) :
    List E.Move → Option E.Move
  | [] => none
  | m :: ms =>
    if E.board_fen (E.push board m) = board_fen then some m
    else find_single E board board_fen ms

/-- The nested two-move loop of get_moves: the first legal move followed by
the first legal reply whose combined application reproduces the physical
board field. -/
def find_double (E : RuleEngine) (board : E.Board) (board_fen : String) :
    List E.Move → Option (E.Move × E.Move)
  | [] => none
  | m :: ms =>
    let b1 := E.push board m
    match find_single E b1 board_fen (E.legal_moves b1) with
    | some m2 => some (m, m2)
    | none => find_double E board board_fen ms

/-- get_moves: no move when the board fields already agree, else the first
1-ply match, else the first 2-ply match, else the InvalidMove exception. -/
def get_moves (E : RuleEngine) (board : E.Board) (fen : String) :
    Except InvalidMove (List String) :=
  let board_fen := pyFirstToken fen
  if E.board_fen board = board_fen then .ok []
  else
    let moves := E.legal_moves board
    match find_single E board board_fen moves with
    | some m => .ok [E.uci m]
    | none =>
      match find_double E board board_fen moves with
      | some p => .ok [E.uci p.1, E.uci p.2]
      | none => .error .mk

/-- A tiny concrete rule engine used to instantiate the get_moves theorem:
boards and moves are numbers, a move replaces the board, the printed board
is its decimal numeral. This is only a witness vehicle for the parametric
theorem. -/
def toyEngine : RuleEngine :=
  { Board := Nat
    Move := Nat
    board_fen := Nat.repr
    legal_moves := fun b => [b + 1, b + 2]
    push := fun _ m => m
    uci := Nat.repr }

/-- The first legal 2-ply sequence reproducing the target field, phrased
through the standard first-match searches over the generation order. -/
def firstTwoPly (E : RuleEngine) (board : E.Board) (F : String) :
    Option (E.Move × E.Move) :=
  (E.legal_moves board).findSome? fun m1 =>
    ((E.legal_moves (E.push board m1)).find? fun m2 =>
      E.board_fen (E.push (E.push board m1) m2) == F).map fun m2 => (m1, m2)

/-! ## Gesture command protocol: PicoChess (src/utils.py lines 236-592)

pygame.time.get_ticks() is passed in explicitly as the current time in
milliseconds; the LedManager collaborator is modelled by logging the led
calls PicoChess makes. -/

/-- A call PicoChess makes on its LedManager. -/
inductive LedAction : Type
  | set : LedMsg → LedAction
  | flash : LedMsg → LedAction
deriving DecidableEq

/-- The game settings fields the gesture protocol reads or writes
(game_settings is a dict in run.py; settings comparisons below only ever
differ on these fields because the protocol writes no others). -/
structure Settings where
  human_game : Bool
  play_white : Bool
  rotate180 : Bool
  chess960 : Bool
  use_board_position : Bool
  side_to_move : String
  time_constraint : String
  time_total_minutes : Int
  time_increment_seconds : Int
  difficulty : Int
  engine : String
  book : String
deriving DecidableEq

/-- The PicoChess decoder state, with the led calls it has issued. -/
structure PicoChess where
  is_on : Bool
  wait_between_commands : Int
  last_command_time : Int
  last_exit_command_time : Int
  exit_application : Bool
  exit_game : Bool
  start_game : Bool
  can_calibrate : Bool
  led_log : List LedAction
deriving DecidableEq

/-- PicoChess.__init__. -/
def PicoChess.init (is_on : Bool) : PicoChess :=
  { is_on := is_on
    wait_between_commands := 3000
    last_command_time := -3000
    last_exit_command_time := -3000
    exit_application := false
    exit_game := false
    start_game := false
    can_calibrate := true
    led_log := [] }

/-- Append a led call to the log. -/
def PicoChess.led (p : PicoChess) (a : LedAction) : PicoChess :=
  { p with led_log := p.led_log ++ [a] }

/-- s[i] on a Python string, with a junk space for an out-of-range index
(where Python raises; the gesture patterns only index well-formed rows). -/
def pyCharAt (s : String) (i : Nat) : Char := s.data.getD i ' '

/-- s[-1] on a Python string. -/
def pyLastChar (s : String) : Char := s.data.getLastD ' '

/-- l[i] on a Python list with both-signs indexing, with a default for an
out-of-range index. -/
def pyIndex {α : Type} (l : List α) (i : Int) (dflt : α) : α :=
  if 0 ≤ i then l.getD i.toNat dflt
  else if -i ≤ (l.length : Int) then l.getD (l.length - (-i).toNat) dflt
  else dflt

/-- any(char.isdigit() for char in s). -/
def hasNumbers (s : String) : Bool := s.data.any Char.isDigit

/-- s[::2]: every second character. -/
def everySecond : List Char → List Char
  | [] => []
  | [a] => [a]
  | a :: _ :: t => a :: everySecond t

/-- s[::2] as a string. -/
def everyOther (s : String) : String := ⟨everySecond s.data⟩

/-- PicoChess.home_window: spare queens on d4/d5 command a new game;
the home position plus queens on d3/d6 commands calibration (at most once
per idle period). -/
def home_window (p : PicoChess) (now : Int) (board_state : String) :
    (String × Bool) × PicoChess :=
  if board_state = "rnbqkbnr/pppppppp/8/3q4/3Q4/8/PPPPPPPP/RNBQKBNR" ∨
     board_state = "rnbqkbnr/pppppppp/8/3Q4/3q4/8/PPPPPPPP/RNBQKBNR" then
    (("new game", false), ({ p with last_command_time := now }).led (.set (.str "corners")))
  else
    let board_rows := pySplit (Char.ofNat 47) board_state
    let calibPattern :=
      ([0, 1, 6, 7] : List Nat).all
        (fun row => (board_rows.getD row "").length == 8 && !hasNumbers (board_rows.getD row "")) &&
      ([3, 4] : List Nat).all (fun row => board_rows.getD row "" == "8") &&
      everyOther (board_rows.getD 2 "") == "34" && everyOther (board_rows.getD 5 "") == "34"
    if p.can_calibrate && calibPattern then
      (("home", true),
        ({ p with last_command_time := now, can_calibrate := false }).led (.set (.str "corners")))
    else
      (("home", false), p)

/-- The inner row_0_to_71 of new_game_window: decode the queen placement of
one settings rank into an ordinal.  The level tuple accesses use a junk
default where malformed rows would make Python raise. -/
def row_0_to_71 (row : String) : Int :=
  if pyContains row 'Q' && pyContains row 'q' then
    let leftmost_gap : Nat := if (pyCharAt row 0).isDigit then digitVal (pyCharAt row 0) else 0
    let levels : List Int := [16, 30, 42, 52, 60, 66, 70, 72]
    let base := levels.getD leftmost_gap 0
    let diff := (levels.getD (leftmost_gap + 1) 0 - base) / 2
    let rightmost_gap : Int := if (pyLastChar row).isDigit then digitVal (pyLastChar row) else 0
    let extra := diff - rightmost_gap
    let qs := row.data.filter fun c => c = 'Q' ∨ c = 'q'
    let extra := if qs.headD 'Q' = 'q' then extra + diff else extra
    base + extra - 1
  else
    let num : Int := if (pyLastChar row).isDigit then 8 - (digitVal (pyLastChar row) : Int) else 8
    let num := if pyContains row 'q' then num + 8 else num
    num - 1

/-- board_rows[0:2] + board_rows[-2:] joined: the four static ranks. -/
def static_rows (board_rows : List String) : String :=
  pyJoin "/" (board_rows.take 2 ++ board_rows.drop (board_rows.length - 2))

/-- The settings decode of new_game_window when all normal pieces are at
home (the first static_rows case). -/
def decode_home_static (p : PicoChess) (now : Int) (board_rows : List String)
    (settings : Settings) (engines books : List String) : Settings × PicoChess :=
  let r2 := board_rows.getD 2 ""
  let r3 := board_rows.getD 3 ""
  let r4 := board_rows.getD 4 ""
  let r5 := board_rows.getD 5 ""
  if ((board_rows.drop 2).take (board_rows.length - 4)).countP (fun row => row.length = 3) = 2 then
    if pyLower (pyJoin "/" ((board_rows.drop 3).take 2)) = "4q3/4q3" then
      let p := { p with start_game := true, last_command_time := now }
      if settings.use_board_position then
        (settings, { p with last_command_time := now + 20000 - p.wait_between_commands })
      else (settings, p)
    else (settings, p)
  else if pyContains r5 'Q' || pyContains r5 'q' then
    let settings :=
      if pyCharAt r5 0 = 'Q' then { settings with play_white := true }
      else if pyCharAt r5 0 = 'q' then { settings with play_white := false }
      else settings
    let settings :=
      if pyLower r5 = "qq6" ∨ pyLower r5 = "1q6" then { settings with rotate180 := false }
      else if pyLower r5 = "q1q5" ∨ pyLower r5 = "2q5" then { settings with rotate180 := true }
      else settings
    let settings :=
      if pyLower r5 = "3q4" then { settings with chess960 := pyCharAt r5 1 = 'Q' }
      else settings
    let settings :=
      if (pyCharAt r5 0 = '4' ∨ pyCharAt r5 0 = '5' ∨ pyCharAt r5 0 = '6' ∨ pyCharAt r5 0 = '7') ∧
         (pyCharAt r5 1 = 'Q' ∨ pyCharAt r5 1 = 'q') then
        if pyContains r5 'Q' && pyContains r5 'q' then { settings with book := "" }
        else
          let book_offset := digitVal (pyCharAt r5 0) - 4 + (if pyContains r5 'q' then 4 else 0)
          { settings with book := books.getD book_offset "" }
      else settings
    (settings, p)
  else if pyContains r4 'Q' || pyContains r4 'q' then
    let settings :=
      if pyCharAt r4 0 = 'Q' then
        { settings with use_board_position := false, side_to_move := "white" }
      else if pyCharAt r4 0 = 'q' then { settings with use_board_position := true }
      else settings
    let settings :=
      if pyLower r4 = "qq6" ∨ pyLower r4 = "1q6" then { settings with side_to_move := "white" }
      else if pyLower r4 = "q1q5" ∨ pyLower r4 = "2q5" then { settings with side_to_move := "black" }
      else if (pyCharAt r4 0).isDigit then
        let index : Int := 7 - (digitVal (pyCharAt r4 0) : Int)
        if index < 5 then
          { settings with
            time_constraint :=
              pyIndex ["classical", "rapid", "blitz", "unlimited", "custom"] index
                settings.time_constraint }
        else settings
      else settings
    (settings, p)
  else if pyContains r3 'Q' || pyContains r3 'q' then
    ({ settings with difficulty := row_0_to_71 r3 }, p)
  else if pyContains r2 'Q' || pyContains r2 'q' then
    ({ settings with engine := pyIndex engines (row_0_to_71 r2) "stockfish" }, p)
  else (settings, p)

/-- The decode of one kings-out-of-place rank offset, scale and base as in
new_game_window (mins from the white king, secs from the black king). -/
def king_time_value (board_rows : List String) (king : Char) : Option Int :=
  let r2 := board_rows.getD 2 ""
  let r3 := board_rows.getD 3 ""
  let r4 := board_rows.getD 4 ""
  let r5 := board_rows.getD 5 ""
  if pyContains r5 king then
    some (if (pyLastChar r5).isDigit then 7 - (digitVal (pyLastChar r5) : Int) else 7)
  else if pyContains r4 king then
    some (if (pyLastChar r4).isDigit then 15 - (digitVal (pyLastChar r4) : Int) else 15)
  else if pyContains r3 king then
    some (if (pyLastChar r3).isDigit then 30 - (digitVal (pyLastChar r3) : Int) * 2 else 30)
  else if pyContains r2 king then
    some (if (pyLastChar r2).isDigit then 110 - (digitVal (pyLastChar r2) : Int) * 10 else 120)
  else none

/-- The settings decode of new_game_window when one or both kings are
displaced (the second static_rows case): custom time control. -/
def decode_kings_out (board_rows : List String) (settings : Settings) : Settings :=
  let r5 := board_rows.getD 5 ""
  let settings :=
    if pyContains r5 'K' ∧ r5 = "K7" then { settings with time_constraint := "unlimited" }
    else settings
  let mins := if r5 = "K7" then none else king_time_value board_rows 'K'
  let secs := king_time_value board_rows 'k'
  if mins.isSome ∨ secs.isSome then
    let settings := { settings with time_constraint := "custom" }
    let settings :=
      match mins with
      | some m => { settings with time_total_minutes := m }
      | none => settings
    match secs with
    | some s => { settings with time_increment_seconds := s }
    | none => settings
  else settings

/-- PicoChess.new_game_window: debounced settings mutation through queen and
king placements, and the game-start command. -/
def new_game_window (p : PicoChess) (now : Int) (board_state : String)
    (settings : Settings) (engines books : List String) :
    (Settings × Bool) × PicoChess :=
  if now - p.last_command_time < p.wait_between_commands then
    if !p.start_game then ((settings, false), p.led (.set (.str "corners")))
    else ((settings, false), p.led (.flash (.str "corners")))
  else if p.start_game then
    if !settings.use_board_position || (pyContains board_state 'k' && pyContains board_state 'K') then
      ((settings, true), { p with start_game := false })
    else ((settings, false), { p with last_command_time := now })
  else
    let p := p.led (.set (.str "none"))
    let board_rows := pySplit (Char.ofNat 47) board_state
    let static := static_rows board_rows
    let (settings2, p2) :=
      if static = "rnbqkbnr/pppppppp/PPPPPPPP/RNBQKBNR" then
        decode_home_static p now board_rows settings engines books
      else if static = "rnbq1bnr/pppppppp/PPPPPPPP/RNBQKBNR" ∨
              static = "rnbqkbnr/pppppppp/PPPPPPPP/RNBQ1BNR" ∨
              static = "rnbq1bnr/pppppppp/PPPPPPPP/RNBQ1BNR" then
        (decode_kings_out board_rows settings, p)
      else (settings, p)
    if settings2 ≠ settings then
      ((settings2, false), { p2 with last_command_time := now })
    else ((settings2, false), p2)

/-- The outputs of the rule-engine board that game_window and
thinking_window consume: its full FEN and the board fields obtained by
removing kings. -/
structure VirtualBoard where
  fen : String
  board_fen_minus_both_kings : String
  board_fen_minus_black_king : String
  board_fen_minus_white_king : String

/-- A sample settings record used to instantiate the gesture theorems. -/
def sampleSettings : Settings :=
  { human_game := false
    play_white := true
    rotate180 := false
    chess960 := false
    use_board_position := false
    side_to_move := "white"
    time_constraint := "unlimited"
    time_total_minutes := 5
    time_increment_seconds := 8
    difficulty := 0
    engine := "stockfish"
    book := "" }

/-- A sample virtual-board view used to instantiate the gesture theorems. -/
def sampleVB : VirtualBoard :=
  { fen := "f"
    board_fen_minus_both_kings := "b"
    board_fen_minus_black_king := "c"
    board_fen_minus_white_king := "d" }

/-- The recognized central exit patterns on ranks 4 and 5 (tg selects the
game patterns, otherwise the application patterns). -/
def kings_in_exit_position (tg : Bool) (board_state : String) : Bool :=
  let mid := pyLower (pyJoin "/" (((pySplit (Char.ofNat 47) board_state).drop 3).take 2))
  if tg then mid == "4k3/3k4" || mid == "3k4/4k3"
  else mid == "4k3/4k3" || mid == "3k4/3k4"

/-- PicoChess.check_exit: both kings in a recognized central pattern start
an abortable countdown to exiting the game or the application.  tg selects
the game exit (true) or the application exit (false). -/
def check_exit (p : PicoChess) (now : Int) (board_state : String) (tg : Bool) :
    Nat × PicoChess :=
  if !p.is_on then (0, p)
  else
    let flag := if tg then p.exit_game else p.exit_application
    let clearFlag : PicoChess → PicoChess := fun q =>
      if tg then { q with exit_game := false } else { q with exit_application := false }
    let setFlag : PicoChess → PicoChess := fun q =>
      if tg then { q with exit_game := true } else { q with exit_application := true }
    if now - p.last_exit_command_time < p.wait_between_commands ∧ flag then
      if kings_in_exit_position tg board_state then (1, p.led (.flash (.str "all")))
      else (1, clearFlag (p.led (.set (.str "none"))))
    else if flag then (2, clearFlag p)
    else if kings_in_exit_position tg board_state then
      (1, setFlag { p with last_exit_command_time := now + (5000 - p.wait_between_commands) })
    else (0, p)

/-- PicoChess.game_window: the game exit check, and the implicit hint
request (board equal to the logical board minus both kings), debounced. -/
def game_window (p : PicoChess) (now : Int) (physical_board_fen : String)
    (settings : Settings) (vb : VirtualBoard) : (Nat × Bool) × PicoChess :=
  let r := check_exit p now physical_board_fen true
  if physical_board_fen = vb.fen then ((r.1, false), r.2)
  else if now - r.2.last_command_time < r.2.wait_between_commands then ((r.1, false), r.2)
  else
    let hint := !settings.human_game && vb.board_fen_minus_both_kings == physical_board_fen
    if hint then ((r.1, true), { r.2 with last_command_time := now + 2000 })
    else ((r.1, false), r.2)

/-- PicoChess.thinking_window: a removed king forces the engine to move,
debounced. -/
def thinking_window (p : PicoChess) (now : Int) (physical_board_fen : String)
    (vb : VirtualBoard) : Bool × PicoChess :=
  if now - p.last_command_time < p.wait_between_commands then (false, p)
  else if vb.board_fen_minus_black_king == physical_board_fen ||
          vb.board_fen_minus_white_king == physical_board_fen then
    (true, { p with last_command_time := now })
  else (false, p)

/-! ## Proofs about the sensor decoder (claim C2) -/

/-- Counter majority when the first two of three entries agree. -/
theorem most_common1_xxy {α : Type} [DecidableEq α] (x y : α) :
    most_common1 [x, x, y] = some x := by
  by_cases hy : y = x
  · subst hy; simp [most_common1, countsOf, insertCount]
  · simp [most_common1, countsOf, insertCount, Ne.symm hy]

/-- Counter majority when the outer two of three entries agree. -/
theorem most_common1_xyx {α : Type} [DecidableEq α] (x y : α) :
    most_common1 [x, y, x] = some x := by
  by_cases hy : y = x
  · subst hy; simp [most_common1, countsOf, insertCount]
  · simp [most_common1, countsOf, insertCount, Ne.symm hy]

/-- Counter majority when the last two of three entries agree. -/
theorem most_common1_yxx {α : Type} [DecidableEq α] (x y : α) :
    most_common1 [y, x, x] = some x := by
  by_cases hy : y = x
  · subst hy; simp [most_common1, countsOf, insertCount]
  · simp [most_common1, countsOf, insertCount, hy]

/-- Counter majority on three entries: when at least two of them agree, the
most common entry is the agreed one, whatever the order. -/
theorem most_common1_majority {α : Type} [DecidableEq α] (a b c s : α)
    (h : (a = s ∧ b = s) ∨ (a = s ∧ c = s) ∨ (b = s ∧ c = s)) :
    most_common1 [a, b, c] = some s := by
  rcases h with ⟨ha, hb⟩ | ⟨ha, hc⟩ | ⟨hb, hc⟩
  · rw [ha, hb]; exact most_common1_xxy s c
  · rw [ha, hc]; exact most_common1_xyx s b
  · rw [hb, hc]; exact most_common1_yxx s a

/-- Claim C2: with the 3-slot history full, any cell on whose 5-token code at
least 2 of the 3 frames agree decodes to the symbol the code map assigns that
code (the missing marker when unmapped), independently of slot order, and the
snapshot is the FEN assembly of the 64 decoded symbols. -/
theorem data_to_fen_majority (cm : CodeMap) (missing : Char) (d0 d1 d2 : String)
    (cell : Nat) (hcell : cell < 64) (K : List String)
    (hmaj : (cellCode d0 cell = K ∧ cellCode d1 cell = K) ∨
            (cellCode d0 cell = K ∧ cellCode d2 cell = K) ∨
            (cellCode d1 cell = K ∧ cellCode d2 cell = K)) :
    (decodedBoard cm missing [d0, d1, d2])[cell]? = some ((cm K).getD missing) ∧
    data_to_fen cm missing [d0, d1, d2] = fenOfBoard (decodedBoard cm missing [d0, d1, d2]) := by
  refine ⟨?_, rfl⟩
  have hdec : decodeCell cm missing [d0, d1, d2] cell = (cm K).getD missing := by
    unfold decodeCell
    have hsym : ((cm (cellCode d0 cell)).getD missing = (cm K).getD missing ∧
          (cm (cellCode d1 cell)).getD missing = (cm K).getD missing) ∨
        ((cm (cellCode d0 cell)).getD missing = (cm K).getD missing ∧
          (cm (cellCode d2 cell)).getD missing = (cm K).getD missing) ∨
        ((cm (cellCode d1 cell)).getD missing = (cm K).getD missing ∧
          (cm (cellCode d2 cell)).getD missing = (cm K).getD missing) := by
      rcases hmaj with ⟨h1, h2⟩ | ⟨h1, h2⟩ | ⟨h1, h2⟩ <;> rw [h1, h2] <;> simp
    have := most_common1_majority ((cm (cellCode d0 cell)).getD missing)
      ((cm (cellCode d1 cell)).getD missing) ((cm (cellCode d2 cell)).getD missing)
      ((cm K).getD missing) hsym
    simp [this]
  unfold decodedBoard
  rw [List.getElem?_map, List.getElem?_range hcell]
  simpa using hdec

/-- Instantiation of the majority theorem on a concrete code map and frames. -/
theorem data_to_fen_majority_witness :
    (decodedBoard sampleCodeMap '.' [sampleFrame, sampleFrame, "Y"])[0]? = some 'K' := by
  have h := (data_to_fen_majority sampleCodeMap '.' sampleFrame sampleFrame "Y" 0 (by decide)
    ["1", "1", "1", "1", "1"] (by decide)).1
  simpa using h

/-! ## Proofs about the serial frame protocol and history update (claim C3) -/

/-- The unfolding equation of UsbReader.update. -/
theorem UsbReader.update_eq (s : UsbReader) (frames : List String) :
    s.update frames =
      (if (drain_frames (s.data_history, s.data_history_i, false) frames).2.2 ∧
          0 ≤ (drain_frames (s.data_history, s.data_history_i, false) frames).2.1 then
        { s with
          data_history := (drain_frames (s.data_history, s.data_history_i, false) frames).1
          data_history_i := (drain_frames (s.data_history, s.data_history_i, false) frames).2.1
          board_fen := data_to_fen s.code_mapping s.default_missing_piece
            ((drain_frames (s.data_history, s.data_history_i, false) frames).1.map
              (fun o => o.getD "")) }
      else
        { s with
          data_history := (drain_frames (s.data_history, s.data_history_i, false) frames).1
          data_history_i := (drain_frames (s.data_history, s.data_history_i, false) frames).2.1 }) :=
  rfl

/-- Claim C3: a line is delivered upward only when stripping the trailing two
characters and splitting on spaces yields exactly 320 tokens; any other line
is dropped with the buffer reset (and nothing is delivered before the
newline); a drained frame equal to the slot it would replace leaves the
history and the changed flag untouched. -/
theorem frame_acceptance :
    (∀ (buf : String) (c : Char), c ≠ '\n' → usb_step buf c = (buf.push c, none)) ∧
    (∀ buf : String, (usb_step buf '\n').1 = "") ∧
    (∀ (buf f : String), (usb_step buf '\n').2 = some f →
        f = pyDropRight buf 2 ∧ (pySplit (Char.ofNat 32) f).length = 320) ∧
    (∀ buf : String, (pySplit (Char.ofNat 32) (pyDropRight buf 2)).length ≠ 320 →
        (usb_step buf '\n').2 = none) ∧
    (∀ (h : List (Option String)) (i : Int) (changed : Bool) (data : String),
        h.getD ((i.emod 3).toNat) none = some data →
        update_frame h i changed data = (h, if 3 ≤ i + 1 then 0 else i + 1, changed)) := by
  refine ⟨?_, ?_, ?_, ?_, ?_⟩
  · intro buf c hc
    simp [usb_step, hc]
  · intro buf
    simp [usb_step]
  · intro buf f hsome
    simp only [usb_step, if_pos rfl, process_line] at hsome
    by_cases h320 : (pySplit (Char.ofNat 32) (pyDropRight buf 2)).length = 320
    · rw [if_pos h320] at hsome
      cases hsome
      exact ⟨rfl, h320⟩
    · rw [if_neg h320] at hsome
      cases hsome
  · intro buf h320
    simp [usb_step, process_line, h320]
  · intro h i changed data hsame
    simp only [update_frame]
    rw [hsame]
    simp

/-- Instantiation of the identical-frame part of the acceptance theorem. -/
theorem frame_acceptance_witness :
    update_frame [some "a", none, none] (-3) false "a" = ([some "a", none, none], -2, false) := by
  have h := frame_acceptance.2.2.2.2 [some "a", none, none] (-3) false "a" (by decide)
  exact h.trans (by decide)

/-! ## Proofs about the snapshot lifecycle (claim C10) -/

/-- The ring index moves by exactly the number of drained frames while it
cannot yet wrap. -/
theorem drain_frames_index (frames : List String) :
    ∀ st : List (Option String) × Int × Bool,
      st.2.1 + frames.length ≤ 0 →
      (drain_frames st frames).2.1 = st.2.1 + frames.length := by
  induction frames with
  | nil => intro st _; simp [drain_frames]
  | cons d ds ih =>
    rintro ⟨h, i, ch⟩ hle
    dsimp only at hle ⊢
    have hlen : ((d :: ds).length : Int) = (ds.length : Int) + 1 := by
      simp
    rw [hlen] at hle
    have hds : (0 : Int) ≤ (ds.length : Int) := by positivity
    have hwrap : ¬ (3 : Int) ≤ i + 1 := by omega
    have hstep : (update_frame h i ch d).2.1 = i + 1 := by
      simp only [update_frame]
      simp [hwrap]
    have hrec : drain_frames (h, i, ch) (d :: ds) = drain_frames (update_frame h i ch d) ds := by
      simp [drain_frames]
    have hih := ih (update_frame h i ch d) (by rw [hstep]; omega)
    rw [hrec, hih, hstep, hlen]
    ring

/-- While the ring has not yet filled, a poll leaves the snapshot untouched
and just advances the index. -/
theorem update_neg (s : UsbReader) (frames : List String)
    (h : s.data_history_i + frames.length < 0) :
    (s.update frames).board_fen = s.board_fen ∧
    (s.update frames).data_history_i = s.data_history_i + frames.length := by
  have hidx := drain_frames_index frames (s.data_history, s.data_history_i, false)
    (le_of_lt h)
  rw [UsbReader.update_eq, if_neg]
  · exact ⟨rfl, hidx⟩
  · rintro ⟨-, hge⟩
    rw [hidx] at hge
    simp only at hge
    omega

/-- Runs that deliver too few frames to fill the ring leave the snapshot at
its initial value. -/
theorem run_polls_few (polls : List (List String)) :
    ∀ s : UsbReader, s.data_history_i + (polls.flatten.length : Int) < 0 →
      (run_polls s polls).board_fen = s.board_fen ∧
      (run_polls s polls).data_history_i = s.data_history_i + polls.flatten.length := by
  induction polls with
  | nil => intro s _; simp [run_polls]
  | cons fs pss ih =>
    intro s hlt
    have hflat : (((fs :: pss).flatten.length : Nat) : Int) =
        (fs.length : Int) + (pss.flatten.length : Int) := by
      simp
    rw [hflat] at hlt
    have hfs : s.data_history_i + (fs.length : Int) < 0 := by
      have h0 : (0 : Int) ≤ (pss.flatten.length : Int) := by positivity
      omega
    have hu := update_neg s fs hfs
    have hrest := ih (s.update fs) (by rw [hu.2]; omega)
    have hfold : run_polls s (fs :: pss) = run_polls (s.update fs) pss := by
      simp [run_polls]
    refine ⟨?_, ?_⟩
    · rw [hfold, hrest.1, hu.1]
    · rw [hfold, hrest.2, hu.2, hflat]
      ring

/-- A drain whose every frame matches the slot it would replace keeps the
history and leaves the changed flag as it was. -/
theorem drain_frames_same (frames : List String) :
    ∀ st : List (Option String) × Int × Bool,
      allSameFrames st.1 st.2.1 frames →
      (drain_frames st frames).1 = st.1 ∧
      (drain_frames st frames).2.2 = st.2.2 := by
  induction frames with
  | nil => intro st _; simp [drain_frames]
  | cons d ds ih =>
    rintro ⟨h, i, ch⟩ hsame
    dsimp only at hsame ⊢
    rcases hsame with ⟨hslot, hrest⟩
    have hstep : update_frame h i ch d = (h, if 3 ≤ i + 1 then 0 else i + 1, ch) := by
      simp only [update_frame]
      rw [hslot]
      simp
    have hrec : drain_frames (h, i, ch) (d :: ds) = drain_frames (update_frame h i ch d) ds := by
      simp [drain_frames]
    have hih := ih (h, if 3 ≤ i + 1 then 0 else i + 1, ch) hrest
    rw [hrec, hstep]
    simpa using hih

/-- Claim C10: until at least three frames have arrived since construction,
read_board keeps answering the standard starting board field (reversed when
mirrored); and a poll whose every drained frame equals the history slot it
replaces leaves both the history and the snapshot unchanged. -/
theorem snapshot_lifecycle (cm : CodeMap) (missing : Char) :
    (∀ (polls : List (List String)) (frames : List String) (rotate180 : Bool),
        polls.flatten.length + frames.length < 3 →
        ((run_polls (UsbReader.init cm missing) polls).read_board frames rotate180).1 =
          if rotate180 then pyReverse startFEN else startFEN) ∧
    (∀ (s : UsbReader) (frames : List String),
        allSameFrames s.data_history s.data_history_i frames →
        (s.update frames).board_fen = s.board_fen ∧
        (s.update frames).data_history = s.data_history) := by
  constructor
  · intro polls frames rotate180 hlt
    have hrun : run_polls (UsbReader.init cm missing) (polls ++ [frames]) =
        (run_polls (UsbReader.init cm missing) polls).update frames := by
      simp [run_polls]
    have hfew := run_polls_few (polls ++ [frames]) (UsbReader.init cm missing)
      (by
        have hjoin : (polls ++ [frames]).flatten.length =
            polls.flatten.length + frames.length := by
          simp
        rw [hjoin]
        have hinit : (UsbReader.init cm missing).data_history_i = -3 := rfl
        rw [hinit]
        push_cast
        omega)
    have hboard : ((run_polls (UsbReader.init cm missing) polls).update frames).board_fen =
        startFEN := by
      rw [← hrun]; exact hfew.1
    have hview : ((run_polls (UsbReader.init cm missing) polls).read_board frames rotate180).1 =
        if rotate180 then
          pyReverse ((run_polls (UsbReader.init cm missing) polls).update frames).board_fen
        else ((run_polls (UsbReader.init cm missing) polls).update frames).board_fen := rfl
    rw [hview, hboard]
  · intro s frames hsame
    have hd := drain_frames_same frames (s.data_history, s.data_history_i, false) hsame
    rw [UsbReader.update_eq, if_neg]
    · exact ⟨rfl, hd.1⟩
    · rintro ⟨hch, -⟩
      rw [hd.2] at hch
      cases hch

/-- Instantiation of the snapshot lifecycle theorem: after two frames the
reader still reports the starting position. -/
theorem snapshot_lifecycle_witness :
    ((run_polls (UsbReader.init sampleCodeMap '.') [["a"], ["b"]]).read_board [] false).1 =
      startFEN := by
  have h := (snapshot_lifecycle sampleCodeMap '.').1 [["a"], ["b"]] [] false (by decide)
  simpa using h

/-! ## Proofs about calibration file loading (claim C4) -/

/-- Counterexample to the corrupt-file half of the claim: a calibration file
with unreadable contents does not yield an empty mapping with the
needs-calibration flag set; pickle.load raises and load_piece_codes has no
handler, so the error propagates (the construction of the reader in run.py
does not catch it either). -/
theorem load_piece_codes_corrupt_raises :
    load_piece_codes false PickleFile.corrupt = Except.error PickleError.unpickling :=
  rfl

/-- Amended claim C4: a missing calibration file marks needs-calibration and
leaves the mapping empty except for the all-zero code (mapped to the empty
marker); an existing file with unreadable or corrupt contents instead makes
loading fail with the propagated unpickling error. -/
theorem load_piece_codes_spec (prev : Bool) (k : List String) (hk : k ≠ zeroCode) :
    load_piece_codes prev PickleFile.missing =
      Except.ok (true, dictInsert (buildMapping []) zeroCode '.') ∧
    dictInsert (buildMapping []) zeroCode '.' zeroCode = some '.' ∧
    dictInsert (buildMapping []) zeroCode '.' k = none ∧
    load_piece_codes prev PickleFile.corrupt = Except.error PickleError.unpickling := by
  refine ⟨rfl, ?_, ?_, rfl⟩
  · simp [dictInsert]
  · simp [dictInsert, hk, buildMapping, code_mapping_order]

/-- Instantiation of the loading theorem: an unrecorded code resolves to
nothing after loading a fresh file. -/
theorem load_piece_codes_spec_witness :
    dictInsert (buildMapping []) zeroCode '.' ["9", "9", "9", "9", "9"] = none :=
  (load_piece_codes_spec false ["9", "9", "9", "9", "9"] (by decide)).2.2.1

/-! ## Proofs about the calibration pass (claim C5) -/

/-- A list of integers that are all zero sums to zero. -/
theorem int_sum_eq_zero (l : List Int) (h : ∀ x ∈ l, x = 0) : l.sum = 0 := by
  induction l with
  | nil => simp
  | cons x t ih =>
    have hx := h x (by simp)
    have ht := ih fun y hy => h y (by simp [hy])
    simp [hx, ht]

/-- add_mapping preserves the recorded-code invariant. -/
theorem add_mapping_good (board_reading : List Int) (m : CalMapping) (key : Char)
    (cell_index : Nat) (hm : goodMapping m) :
    goodMapping (add_mapping board_reading m key cell_index) := by
  unfold add_mapping
  by_cases hc : (codeSlice board_reading cell_index).sum ≠ 0 ∧
      codeSlice board_reading cell_index ∉ m key
  · rw [if_pos hc]
    intro k
    dsimp only
    by_cases hk : k = key
    · subst hk
      rw [if_pos rfl]
      refine ⟨?_, ?_⟩
      · have hnodup := (hm k).1
        have hnotmem := hc.2
        simp [List.nodup_append, hnodup, hnotmem]
      · intro code hcode
        rcases List.mem_append.mp hcode with hold | hnew
        · exact (hm k).2 code hold
        · simp at hnew
          rw [hnew]
          exact hc.1
    · rw [if_neg hk]
      exact hm k
  · rw [if_neg hc]
    exact hm

/-- Folding add_mapping over any square list preserves the invariant. -/
theorem fold_add_mapping_good (board_reading : List Int) :
    ∀ (squares : List (Char × Nat)) (m : CalMapping), goodMapping m →
      goodMapping (squares.foldl (fun acc kc => add_mapping board_reading acc kc.1 kc.2) m) := by
  intro squares
  induction squares with
  | nil => intro m hm; simpa using hm
  | cons kc t ih =>
    intro m hm
    simp only [List.foldl_cons]
    exact ih _ (add_mapping_good board_reading m kc.1 kc.2 hm)

/-- A calibration pass preserves the invariant. -/
theorem do_calibration_mapping_good (new_setup : Bool) (prev : CalMapping)
    (board_reading : List Int) (hprev : goodMapping prev) :
    goodMapping (do_calibration_mapping new_setup prev board_reading) := by
  unfold do_calibration_mapping
  apply fold_add_mapping_good
  cases new_setup
  · simpa using hprev
  · intro k
    simp

/-- Claim C5: an all-zero code is never appended (its sum is zero, so the
guard rejects it); a code already recorded for a piece is not appended
again; consequently, starting from the empty mapping of __init__, after any
sequence of calibration passes every recorded code is non-zero and occurs
at most once in each piece code list. -/
theorem calibration_codes (board_reading : List Int) (m : CalMapping) (key : Char)
    (cell_index : Nat) :
    ((∀ x ∈ codeSlice board_reading cell_index, x = 0) →
        add_mapping board_reading m key cell_index = m) ∧
    (codeSlice board_reading cell_index ∈ m key →
        add_mapping board_reading m key cell_index = m) ∧
    (∀ passes : List (Bool × List Int),
        ∀ k, ((passes.foldl
            (fun acc pass => do_calibration_mapping pass.1 acc pass.2)
            calibInitMapping) k).Nodup ∧
          ∀ code ∈ (passes.foldl
              (fun acc pass => do_calibration_mapping pass.1 acc pass.2)
              calibInitMapping) k,
            code.sum ≠ 0 ∧ ¬ (∀ x ∈ code, x = 0)) := by
  refine ⟨?_, ?_, ?_⟩
  · intro hzero
    unfold add_mapping
    rw [if_neg]
    rintro ⟨hsum, -⟩
    exact hsum (int_sum_eq_zero _ hzero)
  · intro hmem
    unfold add_mapping
    rw [if_neg]
    rintro ⟨-, hnot⟩
    exact hnot hmem
  · intro passes
    have hgood : goodMapping (passes.foldl
        (fun acc pass => do_calibration_mapping pass.1 acc pass.2) calibInitMapping) := by
      induction passes using List.reverseRecOn with
      | nil =>
        intro k
        simp [calibInitMapping]
      | append_singleton t pass ih =>
        rw [List.foldl_append]
        exact do_calibration_mapping_good pass.1 _ pass.2 ih
    intro k
    refine ⟨(hgood k).1, ?_⟩
    intro code hcode
    have hsum := (hgood k).2 code hcode
    refine ⟨hsum, ?_⟩
    intro hall
    exact hsum (int_sum_eq_zero _ hall)

/-- Instantiation of the calibration-codes theorem: an all-zero reading at a
pawn square records nothing. -/
theorem calibration_codes_witness :
    add_mapping [0, 0, 0, 0, 0, 0, 0, 0, 0, 0] calibInitMapping 'p' 1 = calibInitMapping :=
  (calibration_codes [0, 0, 0, 0, 0, 0, 0, 0, 0, 0] calibInitMapping 'p' 1).1 (by decide)

/-! ## Proofs about move inference (claim C1) -/

/-- The single-move loop is the first-match search over the move list. -/
theorem find_single_eq (E : RuleEngine) (b : E.Board) (F : String) (l : List E.Move) :
    find_single E b F l = l.find? fun m => E.board_fen (E.push b m) == F := by
  induction l with
  | nil => rfl
  | cons m ms ih =>
    by_cases h : E.board_fen (E.push b m) = F
    · have hb : (E.board_fen (E.push b m) == F) = true := by simp [h]
      simp [find_single, List.find?, h, hb]
    · have hb : (E.board_fen (E.push b m) == F) = false := by simp [h]
      simp [find_single, List.find?, h, hb, ih]

/-- The nested loop is the first-match search for a reply after each move. -/
theorem find_double_eq (E : RuleEngine) (b : E.Board) (F : String) (l : List E.Move) :
    find_double E b F l = l.findSome? fun m1 =>
      ((E.legal_moves (E.push b m1)).find? fun m2 =>
        E.board_fen (E.push (E.push b m1) m2) == F).map fun m2 => (m1, m2) := by
  induction l with
  | nil => rfl
  | cons m ms ih =>
    rcases hfs : (E.legal_moves (E.push b m)).find? fun m2 =>
        E.board_fen (E.push (E.push b m) m2) == F with - | m2
    · have hleft : find_double E b F (m :: ms) = find_double E b F ms := by
        simp only [find_double, find_single_eq, hfs]
      rw [hleft, ih, List.findSome?_cons]
      simp [hfs]
    · have hleft : find_double E b F (m :: ms) = some (m, m2) := by
        simp only [find_double, find_single_eq, hfs]
      rw [hleft, List.findSome?_cons]
      simp [hfs]

/-- Claim C1: get_moves returns no move exactly on matching fields without
searching further; otherwise it returns the first legal move reproducing the
physical field, else the first legal 2-ply sequence doing so, and raises
InvalidMove exactly when no such 1- or 2-ply sequence exists. -/
theorem get_moves_correct (E : RuleEngine) (board : E.Board) (fen : String) :
    (E.board_fen board = pyFirstToken fen → get_moves E board fen = Except.ok []) ∧
    (E.board_fen board ≠ pyFirstToken fen →
      ∀ m, ((E.legal_moves board).find? fun mv =>
          E.board_fen (E.push board mv) == pyFirstToken fen) = some m →
        get_moves E board fen = Except.ok [E.uci m]) ∧
    (E.board_fen board ≠ pyFirstToken fen →
      ((E.legal_moves board).find? fun mv =>
          E.board_fen (E.push board mv) == pyFirstToken fen) = none →
      ∀ m1 m2, firstTwoPly E board (pyFirstToken fen) = some (m1, m2) →
        get_moves E board fen = Except.ok [E.uci m1, E.uci m2]) ∧
    (get_moves E board fen = Except.error InvalidMove.mk ↔
      E.board_fen board ≠ pyFirstToken fen ∧
      (∀ mv ∈ E.legal_moves board, E.board_fen (E.push board mv) ≠ pyFirstToken fen) ∧
      (∀ m1 ∈ E.legal_moves board, ∀ m2 ∈ E.legal_moves (E.push board m1),
        E.board_fen (E.push (E.push board m1) m2) ≠ pyFirstToken fen)) := by
  refine ⟨?_, ?_, ?_, ?_⟩
  · intro heq
    simp only [get_moves]
    rw [if_pos heq]
  · intro hne m hfind
    simp only [get_moves]
    rw [if_neg hne, find_single_eq, hfind]
  · intro hne hnone m1 m2 hdouble
    unfold firstTwoPly at hdouble
    simp only [get_moves]
    rw [if_neg hne, find_single_eq, hnone, find_double_eq, hdouble]
  · by_cases heq : E.board_fen board = pyFirstToken fen
    · simp only [get_moves]
      rw [if_pos heq]
      simp [heq]
    · simp only [get_moves]
      rw [if_neg heq, find_single_eq, find_double_eq]
      rcases hs : (E.legal_moves board).find? fun mv =>
          E.board_fen (E.push board mv) == pyFirstToken fen with - | m
      · rcases hd : (E.legal_moves board).findSome? fun m1 =>
            ((E.legal_moves (E.push board m1)).find? fun m2 =>
              E.board_fen (E.push (E.push board m1) m2) == pyFirstToken fen).map
              fun m2 => (m1, m2) with - | p
        · constructor
          · intro _
            refine ⟨heq, ?_, ?_⟩
            · intro mv hmv
              have := List.find?_eq_none.mp hs mv hmv
              simpa using this
            · intro m1 hm1 m2 hm2
              have hnone1 := List.findSome?_eq_none_iff.mp hd m1 hm1
              have hnone2 : ((E.legal_moves (E.push board m1)).find? fun mv2 =>
                  E.board_fen (E.push (E.push board m1) mv2) == pyFirstToken fen) = none := by
                by_contra hne2
                rcases Option.ne_none_iff_exists.mp hne2 with ⟨mv2, hmv2⟩
                rw [← hmv2] at hnone1
                simp at hnone1
              have := List.find?_eq_none.mp hnone2 m2 hm2
              simpa using this
          · intro _
            rfl
        · constructor
          · intro hcontra
            exact Except.noConfusion hcontra
          · rintro ⟨-, -, hall⟩
            exfalso
            rcases List.exists_of_findSome?_eq_some hd with ⟨m1, hm1, hf⟩
            rcases Option.map_eq_some.mp hf with ⟨m2, hfind2, -⟩
            have hmem2 := List.mem_of_find?_eq_some hfind2
            have hpred2 := List.find?_some hfind2
            have hfen2 : E.board_fen (E.push (E.push board m1) m2) = pyFirstToken fen := by
              simpa using hpred2
            exact hall m1 hm1 m2 hmem2 hfen2
      · constructor
        · intro hcontra
          exact Except.noConfusion hcontra
        · rintro ⟨-, hall, -⟩
          exfalso
          have hmem := List.mem_of_find?_eq_some hs
          have hpred := List.find?_some hs
          have hfen : E.board_fen (E.push board m) = pyFirstToken fen := by
            simpa using hpred
          exact hall m hmem hfen

/-- Instantiation of the move-inference theorem on the toy engine: from
position 0 the physical field 2 is explained by the single move 2. -/
theorem get_moves_correct_witness :
    get_moves toyEngine (0 : Nat) "2" = Except.ok ["2"] := by
  have h := (get_moves_correct toyEngine (0 : Nat) "2").2.1 (by decide) (2 : Nat) (by rfl)
  simpa using h

/-! ## Proofs about the LED encoder (claims C6 and C7) -/

/-- getD after set at the written index (within bounds). -/
theorem getD_set_self (l : List Nat) (n v : Nat) (h : n < l.length) :
    (l.set n v).getD n 0 = v := by
  induction l generalizing n with
  | nil => simp at h
  | cons x t ih =>
    cases n with
    | zero => simp
    | succ k =>
      simp only [List.set_cons_succ, List.getD_cons_succ]
      exact ih k (by simpa using h)

/-- getD after set at a different index. -/
theorem getD_set_ne (l : List Nat) (n m v : Nat) (h : n ≠ m) :
    (l.set n v).getD m 0 = l.getD m 0 := by
  induction l generalizing n m with
  | nil => simp
  | cons x t ih =>
    cases n with
    | zero =>
      cases m with
      | zero => exact absurd rfl h
      | succ j => simp
    | succ k =>
      cases m with
      | zero => simp
      | succ j =>
        simp only [List.set_cons_succ, List.getD_cons_succ]
        exact ih k j (by omega)

/-- The led accumulation fold keeps eight slots, and each row ends at its
initial value plus the sum of the column values aimed at it. -/
theorem foldl_set_get (ps : List (Nat × Nat)) :
    ∀ init : List Nat, init.length = 8 →
      (ps.foldl (fun leds rc => leds.set rc.1 (leds.getD rc.1 0 + rc.2)) init).length = 8 ∧
      ∀ r, r < 8 →
        (ps.foldl (fun leds rc => leds.set rc.1 (leds.getD rc.1 0 + rc.2)) init).getD r 0 =
          init.getD r 0 + ((ps.filter fun rc => rc.1 == r).map fun rc => rc.2).sum := by
  induction ps with
  | nil =>
    intro init hlen
    exact ⟨hlen, fun r _ => by simp⟩
  | cons rc t ih =>
    intro init hlen
    have hlen2 : (init.set rc.1 (init.getD rc.1 0 + rc.2)).length = 8 := by
      simpa using hlen
    have hrec := ih (init.set rc.1 (init.getD rc.1 0 + rc.2)) hlen2
    refine ⟨by simpa using hrec.1, ?_⟩
    intro r hr
    have hrow := hrec.2 r hr
    simp only [List.foldl_cons] at hrow ⊢
    rw [hrow]
    by_cases hcr : rc.1 = r
    · subst hcr
      rw [getD_set_self init rc.1 _ (by rw [hlen]; exact hr)]
      have hbeq : (rc.1 == rc.1) = true := by simp
      simp only [List.filter_cons, hbeq, if_true, List.map_cons, List.sum_cons]
      omega
    · have hbeq : (rc.1 == r) = false := by simp [hcr]
      rw [getD_set_ne init rc.1 r _ hcr]
      simp [List.filter_cons, hbeq]

/-- A sum of distinct powers of two below the n-th stays below 2^n, and its
binary digits are exactly the exponents present. -/
theorem sum_pow_two_bits (n : Nat) :
    ∀ cs : List Nat, cs.Nodup → (∀ c ∈ cs, c < n) →
      ((cs.map fun c => 2 ^ c).sum < 2 ^ n ∧
        ∀ c : Nat, (Nat.testBit ((cs.map fun c => 2 ^ c).sum) c = true ↔ c ∈ cs)) := by
  induction n with
  | zero =>
    intro cs _ hlt
    cases cs with
    | nil => simp
    | cons x t => exact absurd (hlt x (by simp)) (by omega)
  | succ n ih =>
    intro cs hnd hlt
    by_cases hn : n ∈ cs
    · have hperm : cs.Perm (n :: cs.erase n) := List.perm_cons_erase hn
      have hsum : (cs.map fun c => 2 ^ c).sum =
          2 ^ n + ((cs.erase n).map fun c => 2 ^ c).sum := by
        have := (hperm.map fun c => 2 ^ c).sum_eq
        simpa using this
      have hnd2 : (cs.erase n).Nodup := hnd.erase n
      have hlt2 : ∀ c ∈ cs.erase n, c < n := by
        intro c hc
        have hcc := (List.Nodup.mem_erase_iff hnd).mp hc
        have := hlt c hcc.2
        have hne := hcc.1
        omega
      obtain ⟨ihsum, ihbits⟩ := ih (cs.erase n) hnd2 hlt2
      have hpos : (0 : Nat) < 2 ^ n := pow_pos (by norm_num) n
      constructor
      · rw [hsum, pow_succ]
        omega
      · intro c
        rcases lt_trichotomy c n with hcn | hcn | hcn
        · rw [hsum, Nat.testBit_two_pow_add_gt hcn, ihbits c]
          constructor
          · intro hc
            exact ((List.Nodup.mem_erase_iff hnd).mp hc).2
          · intro hc
            exact (List.Nodup.mem_erase_iff hnd).mpr ⟨by omega, hc⟩
        · subst hcn
          rw [hsum, Nat.testBit_two_pow_add_eq, Nat.testBit_lt_two_pow ihsum]
          simpa using hn
        · have hbound : (cs.map fun c => 2 ^ c).sum < 2 ^ c := by
            rw [hsum]
            have hmono : 2 ^ (n + 1) ≤ 2 ^ c := Nat.pow_le_pow_right (by norm_num) (by omega)
            rw [pow_succ] at hmono
            omega
          rw [Nat.testBit_lt_two_pow hbound]
          constructor
          · intro hfalse
            cases hfalse
          · intro hc
            have := hlt c hc
            omega
    · have hlt2 : ∀ c ∈ cs, c < n := by
        intro c hc
        have := hlt c hc
        have hne : c ≠ n := fun h => hn (h ▸ hc)
        omega
      obtain ⟨ihsum, ihbits⟩ := ih cs hnd hlt2
      have hpos : (0 : Nat) < 2 ^ n := pow_pos (by norm_num) n
      refine ⟨?_, ihbits⟩
      have : (2 : Nat) ^ n < 2 ^ (n + 1) := by
        rw [pow_succ]; omega
      omega

/-- Decidable facts about the eight files and ranks: index bounds, the
reversed index, and the digit values. -/
theorem square_char_facts :
    ∀ c ∈ COLUMNS_LETTERS, ∀ r ∈ digitChars,
      COLUMNS_LETTERS.indexOf c < 8 ∧
      COLUMNS_LETTERS_REVERSED.indexOf c = 7 - COLUMNS_LETTERS.indexOf c ∧
      1 ≤ digitVal r ∧ digitVal r ≤ 8 := by decide

/-- Distinct files have distinct indices. -/
theorem indexOf_inj_cols :
    ∀ c1 ∈ COLUMNS_LETTERS, ∀ c2 ∈ COLUMNS_LETTERS,
      COLUMNS_LETTERS.indexOf c1 = COLUMNS_LETTERS.indexOf c2 → c1 = c2 := by decide

/-- Distinct rank digits have distinct values. -/
theorem digitVal_inj_digits :
    ∀ r1 ∈ digitChars, ∀ r2 ∈ digitChars, digitVal r1 = digitVal r2 → r1 = r2 := by decide

/-- A well-formed square is exactly a file letter and a rank digit. -/
theorem validSquare_elim (sq : String) (h : validSquare sq = true) :
    ∃ c r, sq.data = [c, r] ∧ c ∈ COLUMNS_LETTERS ∧ r ∈ digitChars := by
  rcases hsq : sq.data with - | ⟨c, - | ⟨r, - | ⟨x, rest⟩⟩⟩
  · simp [validSquare, hsq] at h
  · simp [validSquare, hsq] at h
  · simp only [validSquare, hsq, Bool.and_eq_true] at h
    exact ⟨c, r, rfl, List.elem_iff.mp h.1, List.elem_iff.mp h.2⟩
  · simp [validSquare, hsq] at h

/-- On a well-formed square the source encoding produces exactly the
claimed coordinate, as a power-of-two column value in a row below 8. -/
theorem square2certabo_valid (rot : Bool) (sq : String) (h : validSquare sq = true) :
    square2certabo rot sq = ((ledCoord rot sq).1, 2 ^ (ledCoord rot sq).2) ∧
    (ledCoord rot sq).1 < 8 ∧ (ledCoord rot sq).2 < 8 := by
  obtain ⟨c, r, hsq, hcm, hrm⟩ := validSquare_elim sq h
  obtain ⟨hidx, hrev, hdv1, hdv8⟩ := square_char_facts c hcm r hrm
  simp only [square2certabo, ledCoord, hsq]
  cases rot
  · simp only [Bool.false_eq_true, if_false]
    exact ⟨trivial, by omega, hidx⟩
  · simp only [if_true]
    refine ⟨?_, by omega, by omega⟩
    have h1 : 8 - (9 - digitVal r) = digitVal r - 1 := by omega
    rw [hrev, h1]

/-- The claimed coordinates distinguish distinct well-formed squares. -/
theorem ledCoord_inj (rot : Bool) (a b : String) (ha : validSquare a = true)
    (hb : validSquare b = true) (heq : ledCoord rot a = ledCoord rot b) : a = b := by
  obtain ⟨c1, r1, hsa, hc1, hr1⟩ := validSquare_elim a ha
  obtain ⟨c2, r2, hsb, hc2, hr2⟩ := validSquare_elim b hb
  obtain ⟨hidx1, -, hdva, hdva8⟩ := square_char_facts c1 hc1 r1 hr1
  obtain ⟨hidx2, -, hdvb, hdvb8⟩ := square_char_facts c2 hc2 r2 hr2
  simp only [ledCoord, hsa, hsb] at heq
  have hcr : c1 = c2 ∧ r1 = r2 := by
    cases rot
    · simp only [Bool.false_eq_true, if_false, Prod.mk.injEq] at heq
      refine ⟨indexOf_inj_cols c1 hc1 c2 hc2 heq.2, digitVal_inj_digits r1 hr1 r2 hr2 ?_⟩
      omega
    · simp only [if_true, Prod.mk.injEq] at heq
      refine ⟨indexOf_inj_cols c1 hc1 c2 hc2 ?_, digitVal_inj_digits r1 hr1 r2 hr2 ?_⟩
      · omega
      · omega
  apply String.ext
  rw [hsa, hsb, hcr.1, hcr.2]

/-- getD on an all-zero frame. -/
theorem getD_replicate_zero (n : Nat) : ∀ i : Nat, (List.replicate n (0 : Nat)).getD i 0 = 0 := by
  induction n with
  | zero => intro i; simp
  | succ k ih =>
    intro i
    cases i with
    | zero => simp [List.replicate_succ]
    | succ j => simp [List.replicate_succ, ih j]

/-- The led frame built from any deduplicated list of well-formed squares:
eight slots, every value at most 255, and bit c of row r set exactly when
some requested square has claimed coordinate (r, c). -/
theorem buildLeds_spec (rot : Bool) (sqs : List String)
    (hv : ∀ sq ∈ sqs, validSquare sq = true) (hnd : sqs.Nodup) :
    ((sqs.map (square2certabo rot)).foldl
        (fun leds rc => leds.set rc.1 (leds.getD rc.1 0 + rc.2)) (List.replicate 8 0)).length = 8 ∧
    (∀ v ∈ (sqs.map (square2certabo rot)).foldl
        (fun leds rc => leds.set rc.1 (leds.getD rc.1 0 + rc.2)) (List.replicate 8 0), v ≤ 255) ∧
    (∀ r c : Nat, r < 8 → c < 8 →
      (Nat.testBit (((sqs.map (square2certabo rot)).foldl
          (fun leds rc => leds.set rc.1 (leds.getD rc.1 0 + rc.2))
          (List.replicate 8 0)).getD r 0) c = true ↔
        ∃ sq ∈ sqs, ledCoord rot sq = (r, c))) := by
  have hmap : sqs.map (square2certabo rot) =
      (sqs.map (ledCoord rot)).map fun q => (q.1, 2 ^ q.2) := by
    rw [List.map_map]
    exact List.map_congr_left fun sq hsq => (square2certabo_valid rot sq (hv sq hsq)).1
  have hqs_bound : ∀ q ∈ sqs.map (ledCoord rot), q.1 < 8 ∧ q.2 < 8 := by
    intro q hq
    rcases List.mem_map.mp hq with ⟨sq, hsq, rfl⟩
    exact ⟨(square2certabo_valid rot sq (hv sq hsq)).2.1,
      (square2certabo_valid rot sq (hv sq hsq)).2.2⟩
  have hqs_nodup : (sqs.map (ledCoord rot)).Nodup := by
    refine List.Nodup.map_on ?_ hnd
    intro a ha b hb hab
    exact ledCoord_inj rot a b (hv a ha) (hv b hb) hab
  obtain ⟨hlen, hrow⟩ := foldl_set_get (sqs.map (square2certabo rot)) (List.replicate 8 0)
    (by simp)
  have hcols : ∀ r : Nat,
      (((sqs.map (square2certabo rot)).filter fun rc => rc.1 == r).map fun rc => rc.2) =
        (((sqs.map (ledCoord rot)).filter fun q => q.1 == r).map fun q => q.2).map
          fun c => 2 ^ c := by
    intro r
    rw [hmap, List.filter_map, List.map_map, List.map_map]
    have hpc : ((fun rc : Nat × Nat => rc.1 == r) ∘ fun q : Nat × Nat => (q.1, 2 ^ q.2)) =
        fun q : Nat × Nat => q.1 == r := rfl
    rw [hpc]
    rfl
  have hrowval : ∀ r : Nat, r < 8 →
      ((sqs.map (square2certabo rot)).foldl
          (fun leds rc => leds.set rc.1 (leds.getD rc.1 0 + rc.2))
          (List.replicate 8 0)).getD r 0 =
        ((((sqs.map (ledCoord rot)).filter fun q => q.1 == r).map fun q => q.2).map
          fun c => 2 ^ c).sum := by
    intro r hr
    rw [hrow r hr, getD_replicate_zero 8 r, hcols r]
    omega
  have hcols_nodup : ∀ r : Nat,
      (((sqs.map (ledCoord rot)).filter fun q => q.1 == r).map fun q => q.2).Nodup := by
    intro r
    refine List.Nodup.map_on ?_ (List.Nodup.filter _ hqs_nodup)
    intro a ha b hb hab
    have ha2 := List.of_mem_filter ha
    have hb2 := List.of_mem_filter hb
    have ha1 : a.1 = r := by simpa using ha2
    have hb1 : b.1 = r := by simpa using hb2
    exact Prod.ext (ha1.trans hb1.symm) hab
  have hcols_lt : ∀ r : Nat, ∀ c ∈ ((sqs.map (ledCoord rot)).filter
      fun q => q.1 == r).map fun q => q.2, c < 8 := by
    intro r c hc
    rcases List.mem_map.mp hc with ⟨q, hq, rfl⟩
    exact (hqs_bound q (List.mem_of_mem_filter hq)).2
  have hmem_iff : ∀ r c : Nat,
      (c ∈ ((sqs.map (ledCoord rot)).filter fun q => q.1 == r).map fun q => q.2) ↔
        ∃ sq ∈ sqs, ledCoord rot sq = (r, c) := by
    intro r c
    constructor
    · intro hc
      rcases List.mem_map.mp hc with ⟨q, hq, rfl⟩
      have hq1 : q.1 = r := by simpa using List.of_mem_filter hq
      rcases List.mem_map.mp (List.mem_of_mem_filter hq) with ⟨sq, hsq, rfl⟩
      exact ⟨sq, hsq, by rw [← hq1]⟩
    · rintro ⟨sq, hsq, hco⟩
      refine List.mem_map.mpr ⟨(r, c), List.mem_filter.mpr ⟨?_, by simp⟩, rfl⟩
      exact List.mem_map.mpr ⟨sq, hsq, hco⟩
  refine ⟨hlen, ?_, ?_⟩
  · intro v hvmem
    rcases List.mem_iff_getElem.mp hvmem with ⟨i, hi, rfl⟩
    have hi8 : i < 8 := by rw [hlen] at hi; exact hi
    have hgd : ((sqs.map (square2certabo rot)).foldl
        (fun leds rc => leds.set rc.1 (leds.getD rc.1 0 + rc.2))
        (List.replicate 8 0)).getD i 0 =
        ((sqs.map (square2certabo rot)).foldl
          (fun leds rc => leds.set rc.1 (leds.getD rc.1 0 + rc.2))
          (List.replicate 8 0))[i] := List.getD_eq_getElem _ _ hi
    rw [← hgd, hrowval i hi8]
    have hbits := (sum_pow_two_bits 8 _ (hcols_nodup i) (hcols_lt i)).1
    omega
  · intro r c hr hc
    rw [hrowval r hr]
    rw [(sum_pow_two_bits 8 _ (hcols_nodup r) (hcols_lt r)).2 c]
    exact hmem_iff r c

/-- Counterexample to claim C6 as frozen: the degenerate 4-character move
string h1h1 is accepted by the encoder, but adding the h-column value twice
yields 256 in the last row, outside 0..255 (bit 7 is not set although
column 7 of row 7 was requested). -/
theorem squares2led_range_cex :
    squares2led (.str "h1h1") false = [0, 0, 0, 0, 0, 0, 0, 256] ∧
    ¬ (∀ v ∈ squares2led (.str "h1h1") false, v ≤ 255) := by
  constructor
  · decide
  · decide

/-- Amended claim C6: every named pattern frame has exactly 8 values in
0..255; and for every well-formed square request - one square, a move
naming two distinct squares, or a list of squares - the encoded frame has
exactly 8 values, each at most 255, with bit c of row r set exactly when
the request asks to light column c of row r (in the orientation used). -/
theorem squares2led_frame (m : LedMsg) (rot : Bool) (hval : validRequest m = true) :
    ((∀ name frame, default_messages name = some frame →
        frame.length = 8 ∧ ∀ v ∈ frame, v ≤ 255) ∧
      (squares2led m rot).length = 8 ∧
      (∀ v ∈ squares2led m rot, v ≤ 255) ∧
      (∀ r c : Nat, r < 8 → c < 8 →
        (Nat.testBit ((squares2led m rot).getD r 0) c = true ↔
          ∃ sq ∈ requestSquares m, ledCoord rot sq = (r, c)))) := by
  have hnamed : ∀ name frame, default_messages name = some frame →
      frame.length = 8 ∧ ∀ v ∈ frame, v ≤ 255 := by
    intro name frame h
    unfold default_messages at h
    rcases Option.map_eq_some.mp h with ⟨e, hfind, rfl⟩
    have hmem := List.mem_of_find?_eq_some hfind
    have : ∀ e ∈ default_messages_list, e.2.length = 8 ∧ ∀ v ∈ e.2, v ≤ 255 := by decide
    exact this e hmem
  suffices hmain : (squares2led m rot).length = 8 ∧
      (∀ v ∈ squares2led m rot, v ≤ 255) ∧
      (∀ r c : Nat, r < 8 → c < 8 →
        (Nat.testBit ((squares2led m rot).getD r 0) c = true ↔
          ∃ sq ∈ requestSquares m, ledCoord rot sq = (r, c))) by
    exact ⟨hnamed, hmain⟩
  cases m with
  | str s =>
    simp only [validRequest, Bool.or_eq_true, Bool.and_eq_true, decide_eq_true_eq,
      Bool.not_eq_true', beq_eq_false_iff_ne] at hval
    rcases hval with ⟨hlen, hvs⟩ | ⟨⟨⟨hlen, hv1⟩, hv2⟩, hne⟩
    · have hlt : s.length < 4 := by omega
      have hfold : squares2led (.str s) rot = ([s].map (square2certabo rot)).foldl
          (fun leds rc => leds.set rc.1 (leds.getD rc.1 0 + rc.2))
          (List.replicate 8 0) := by
        simp [squares2led, hlt]
      have hreq : requestSquares (.str s) = [s] := by
        simp [requestSquares, hlt]
      rw [hfold, hreq]
      exact buildLeds_spec rot [s] (by simpa using hvs) (by simp)
    · have hlt : ¬ s.length < 4 := by omega
      have hfold : squares2led (.str s) rot =
          ([pyTake s 2, pyTake (pyDrop s 2) 2].map (square2certabo rot)).foldl
          (fun leds rc => leds.set rc.1 (leds.getD rc.1 0 + rc.2))
          (List.replicate 8 0) := by
        simp [squares2led, hlt]
      have hreq : requestSquares (.str s) = [pyTake s 2, pyTake (pyDrop s 2) 2] := by
        simp [requestSquares, hlt]
      rw [hfold, hreq]
      refine buildLeds_spec rot [pyTake s 2, pyTake (pyDrop s 2) 2] ?_ (by simp [hne])
      intro sq hsq
      simp only [List.mem_cons, List.not_mem_nil, or_false] at hsq
      rcases hsq with rfl | rfl
      · exact hv1
      · exact hv2
  | list l =>
    simp only [validRequest, Bool.and_eq_true, List.all_eq_true] at hval
    by_cases hone : l.length = 1
    · rcases l with - | ⟨x, t⟩
      · simp at hone
      · rcases t with - | ⟨y, t2⟩
        · have hfold : squares2led (.list [x]) rot = ([x].map (square2certabo rot)).foldl
              (fun leds rc => leds.set rc.1 (leds.getD rc.1 0 + rc.2))
              (List.replicate 8 0) := by
            simp [squares2led]
          have hreq : requestSquares (.list [x]) = [x] := by
            simp [requestSquares]
          rw [hfold, hreq]
          refine buildLeds_spec rot [x] ?_ (by simp)
          intro sq hsq
          simp at hsq
          rw [hsq]
          exact hval.2 x (by simp)
        · simp at hone
    · have hfold : squares2led (.list l) rot = (l.dedup.map (square2certabo rot)).foldl
          (fun leds rc => leds.set rc.1 (leds.getD rc.1 0 + rc.2))
          (List.replicate 8 0) := by
        simp [squares2led, hone]
      have hreq : requestSquares (.list l) = l.dedup := by
        simp [requestSquares, hone]
      rw [hfold, hreq]
      refine buildLeds_spec rot l.dedup ?_ (List.nodup_dedup l)
      intro sq hsq
      exact hval.2 sq (List.mem_dedup.mp hsq)

/-- Instantiation of the frame theorem: the move e2e4 lights rows 6 and 4. -/
theorem squares2led_frame_witness :
    (squares2led (.str "e2e4") false).length = 8 ∧
    (∀ v ∈ squares2led (.str "e2e4") false, v ≤ 255) := by
  have h := squares2led_frame (.str "e2e4") false (by decide)
  exact ⟨h.2.1, h.2.2.1⟩

/-- Claim C7: the square set a1, a8, h1, h8 encodes to the same frame as the
named corners pattern, and requesting the same message twice in a row (when
it is not already current) hands exactly one frame to the transport - the
second call is a no-op. -/
theorem set_leds_corners_idempotent :
    (resolve_message (.list ["a1", "a8", "h1", "h8"]) false =
      resolve_message (.str "corners") false) ∧
    ∀ (st : LedManager) (m : LedMsg) (rot : Bool), st.last_message ≠ some m →
      (set_leds st m rot).sent = st.sent ++ [resolve_message m rot] ∧
      set_leds (set_leds st m rot) m rot = set_leds st m rot := by
  constructor
  · decide
  · intro st m rot hne
    have h1 : set_leds st m rot =
        { last_message := some m, sent := st.sent ++ [resolve_message m rot] } := by
      simp [set_leds, hne]
    constructor
    · rw [h1]
    · rw [h1]
      simp [set_leds]

/-- Instantiation of the idempotence theorem: two successive all-on requests
from a fresh manager send exactly one frame. -/
theorem set_leds_corners_idempotent_witness :
    (set_leds (set_leds LedManager.init (.str "all") false) (.str "all") false).sent =
      [[255, 255, 255, 255, 255, 255, 255, 255]] := by
  have h := set_leds_corners_idempotent.2 LedManager.init (.str "all") false (by decide)
  rw [h.2, h.1]
  decide

/-! ## Proofs about the gesture protocol (claims C8 and C9) -/

/-- check_exit never touches the debounce clock of the command decoder. -/
theorem check_exit_preserves (p : PicoChess) (now : Int) (bs : String) (tg : Bool) :
    (check_exit p now bs tg).2.last_command_time = p.last_command_time ∧
    (check_exit p now bs tg).2.wait_between_commands = p.wait_between_commands := by
  cases tg <;>
    (simp only [check_exit, PicoChess.led]
     split_ifs <;> exact ⟨rfl, rfl⟩)

/-- Counterexample to claim C8 as frozen: the home window does not consult
the debounce clock, so a calibration command and a new-game command 100ms
apart are both committed. -/
theorem gesture_debounce_cex :
    (home_window (PicoChess.init true) 0
        "rnbqkbnr/pppppppp/3q4/8/8/3Q4/PPPPPPPP/RNBQKBNR").1 = ("home", true) ∧
    (home_window ((home_window (PicoChess.init true) 0
        "rnbqkbnr/pppppppp/3q4/8/8/3Q4/PPPPPPPP/RNBQKBNR").2) 100
        "rnbqkbnr/pppppppp/8/3q4/3Q4/8/PPPPPPPP/RNBQKBNR").1 = ("new game", false) ∧
    (100 : Int) - (home_window (PicoChess.init true) 0
        "rnbqkbnr/pppppppp/3q4/8/8/3Q4/PPPPPPPP/RNBQKBNR").2.last_command_time < 3000 := by
  refine ⟨?_, ?_, ?_⟩ <;> decide

/-- Amended claim C8: in the new game, game and thinking windows a pattern
presented less than the debounce window after the previous committed
command is ignored - no command is committed, the settings are returned
unchanged and the debounce clock is not advanced (the home window is not
debounced; see the counterexample). -/
theorem gesture_debounce (p : PicoChess) (now : Int) (board_state : String)
    (settings : Settings) (vb : VirtualBoard) (engines books : List String)
    (h : now - p.last_command_time < p.wait_between_commands) :
    (new_game_window p now board_state settings engines books).1 = (settings, false) ∧
    (new_game_window p now board_state settings engines books).2.last_command_time =
      p.last_command_time ∧
    (game_window p now board_state settings vb).1.2 = false ∧
    (game_window p now board_state settings vb).2.last_command_time =
      p.last_command_time ∧
    (thinking_window p now board_state vb).1 = false ∧
    (thinking_window p now board_state vb).2.last_command_time = p.last_command_time := by
  have hng : ∀ x : (Settings × Bool) × PicoChess,
      x = new_game_window p now board_state settings engines books → True := fun _ _ => trivial
  refine ⟨?_, ?_, ?_, ?_, ?_, ?_⟩
  · unfold new_game_window
    rw [if_pos h]
    split <;> rfl
  · unfold new_game_window
    rw [if_pos h]
    split <;> simp [PicoChess.led]
  · unfold game_window
    split
    · rfl
    · rw [if_pos (by
        rw [(check_exit_preserves p now board_state true).1,
          (check_exit_preserves p now board_state true).2]
        exact h)]
  · unfold game_window
    split
    · exact (check_exit_preserves p now board_state true).1
    · rw [if_pos (by
        rw [(check_exit_preserves p now board_state true).1,
          (check_exit_preserves p now board_state true).2]
        exact h)]
      exact (check_exit_preserves p now board_state true).1
  · unfold thinking_window
    rw [if_pos h]
  · unfold thinking_window
    rw [if_pos h]

/-- Instantiation of the debounce theorem 100ms after a committed command. -/
theorem gesture_debounce_witness :
    (new_game_window { PicoChess.init true with last_command_time := 0 } 100 "x"
        sampleSettings [] []).1 = (sampleSettings, false) := by
  have h := gesture_debounce { PicoChess.init true with last_command_time := 0 } 100 "x"
    sampleSettings sampleVB [] [] (by decide)
  exact h.1

/-- Claim C9: with the decoder on, a recognized exit pattern starts a 5-second
countdown (the stored deadline extends the debounce window by 2 seconds); a
poll inside the window keeps the countdown alive while the pattern holds,
and aborts it - clearing the stored flag and the LEDs - when the pattern is
broken; once the window has elapsed with the flag still set the exit is
confirmed, and a confirmed exit can only arise from such a pending
countdown. -/
theorem check_exit_protocol (p : PicoChess) (now : Int) (bs : String) (tg : Bool)
    (hon : p.is_on = true) :
    ((if tg then p.exit_game else p.exit_application) = false →
      kings_in_exit_position tg bs = true →
      (check_exit p now bs tg).1 = 1 ∧
      (if tg then (check_exit p now bs tg).2.exit_game
       else (check_exit p now bs tg).2.exit_application) = true ∧
      (check_exit p now bs tg).2.last_exit_command_time =
        now + (5000 - p.wait_between_commands)) ∧
    ((if tg then p.exit_game else p.exit_application) = true →
      now - p.last_exit_command_time < p.wait_between_commands →
      kings_in_exit_position tg bs = true →
      (check_exit p now bs tg).1 = 1 ∧
      (if tg then (check_exit p now bs tg).2.exit_game
       else (check_exit p now bs tg).2.exit_application) = true ∧
      (check_exit p now bs tg).2.last_exit_command_time = p.last_exit_command_time) ∧
    ((if tg then p.exit_game else p.exit_application) = true →
      now - p.last_exit_command_time < p.wait_between_commands →
      kings_in_exit_position tg bs = false →
      (check_exit p now bs tg).1 = 1 ∧
      (if tg then (check_exit p now bs tg).2.exit_game
       else (check_exit p now bs tg).2.exit_application) = false ∧
      (check_exit p now bs tg).2.led_log = p.led_log ++ [LedAction.set (.str "none")]) ∧
    ((if tg then p.exit_game else p.exit_application) = true →
      ¬ (now - p.last_exit_command_time < p.wait_between_commands) →
      (check_exit p now bs tg).1 = 2 ∧
      (if tg then (check_exit p now bs tg).2.exit_game
       else (check_exit p now bs tg).2.exit_application) = false) ∧
    ((check_exit p now bs tg).1 = 2 →
      (if tg then p.exit_game else p.exit_application) = true ∧
      ¬ (now - p.last_exit_command_time < p.wait_between_commands)) := by
  refine ⟨?_, ?_, ?_, ?_, ?_⟩
  · intro hflag hkings
    cases tg <;>
      (simp only [if_true, if_false, Bool.false_eq_true, Bool.true_eq_false] at hflag
       simp [check_exit, PicoChess.led, hon, hflag, hkings])
  · intro hflag hwin hkings
    cases tg <;>
      (simp only [if_true, if_false, Bool.false_eq_true, Bool.true_eq_false] at hflag
       simp [check_exit, PicoChess.led, hon, hflag, hwin, hkings])
  · intro hflag hwin hkings
    cases tg <;>
      (simp only [if_true, if_false, Bool.false_eq_true, Bool.true_eq_false] at hflag
       simp [check_exit, PicoChess.led, hon, hflag, hwin, hkings])
  · intro hflag hwin
    cases tg <;>
      (simp only [if_true, if_false, Bool.false_eq_true, Bool.true_eq_false] at hflag
       simp [check_exit, PicoChess.led, hon, hflag, hwin])
  · intro h2
    cases tg
    · by_cases hflag : p.exit_application = true
      · by_cases hwin : now - p.last_exit_command_time < p.wait_between_commands
        · exfalso
          cases hk : kings_in_exit_position false bs <;>
            simp [check_exit, PicoChess.led, hon, hflag, hwin, hk] at h2
        · exact ⟨by simpa using hflag, hwin⟩
      · exfalso
        have hflag2 : p.exit_application = false := by simpa using hflag
        by_cases hwin : now - p.last_exit_command_time < p.wait_between_commands <;>
          cases hk : kings_in_exit_position false bs <;>
          simp [check_exit, PicoChess.led, hon, hflag2, hwin, hk] at h2
    · by_cases hflag : p.exit_game = true
      · by_cases hwin : now - p.last_exit_command_time < p.wait_between_commands
        · exfalso
          cases hk : kings_in_exit_position true bs <;>
            simp [check_exit, PicoChess.led, hon, hflag, hwin, hk] at h2
        · exact ⟨by simpa using hflag, hwin⟩
      · exfalso
        have hflag2 : p.exit_game = false := by simpa using hflag
        by_cases hwin : now - p.last_exit_command_time < p.wait_between_commands <;>
          cases hk : kings_in_exit_position true bs <;>
          simp [check_exit, PicoChess.led, hon, hflag2, hwin, hk] at h2

/-- Instantiation of the exit protocol theorem: a fresh decoder seeing the
application exit pattern starts the countdown. -/
theorem check_exit_protocol_witness :
    (check_exit (PicoChess.init true) 0 "8/8/8/4K3/4k3/8/8/8" false).1 = 1 := by
  have h := (check_exit_protocol (PicoChess.init true) 0 "8/8/8/4K3/4k3/8/8/8" false rfl).1
    (by decide) (by decide)
  exact h.1

end Certabo
